import Mathlib

/-!
Verification of the profit-computation, aggregation, filtering and store
layers of the LogiBook freight-forwarding dashboard.

Numbers are modelled as rationals (`ℚ`); JavaScript numeric fields that may
be `undefined`/`null` are modelled as `Option ℚ`, and the JavaScript idiom
`x || 0` becomes `orZero`, while `x || 7.2` on the exchange rate becomes
`effRate`.  Dates are modelled by their calendar components (the code only
ever uses the year/month/day of the parsed date).  JavaScript `Map`
insertion-order semantics are modelled by association lists with in-place
update (`upsert`), and the stable `Array.prototype.sort` by Mathlib's
stable `List.insertionSort`.
-/

/-- Calendar date components, as produced by `parseISO` / `new Date(...)`. -/
structure JsDate where
  year : Nat
  month : Nat
  day : Nat
deriving DecidableEq, Repr

/-- The `ShipmentRecord` entity of `src/types/record.ts`.  All fee fields are
`Option ℚ` because the computation layer guards every read with `|| 0`
(persisted data may omit them). -/
structure ShipmentRecord where
  id : String
  createdAt : JsDate
  bookingNo : String
  businessNo : String
  shipper : String
  client : String
  fleet : String
  loadingDate : Option JsDate
  pol : String
  pod : String
  vesselName : String
  containerType : String
  containerNo : String
  oceanFreightCost : Option ℚ
  oceanFreightPrice : Option ℚ
  truckingFeeCost : Option ℚ
  truckingFeePrice : Option ℚ
  customsFeeCost : Option ℚ
  customsFeePrice : Option ℚ
  thcCost : Option ℚ
  thcPrice : Option ℚ
  printingFeeCost : Option ℚ
  printingFeePrice : Option ℚ
  sealFeeCost : Option ℚ
  sealFeePrice : Option ℚ
  docFeeCost : Option ℚ
  docFeePrice : Option ℚ
  telexFeeCost : Option ℚ
  telexFeePrice : Option ℚ
  blFeeCost : Option ℚ
  blFeePrice : Option ℚ
  diffPickupFeeCost : Option ℚ
  diffPickupFeePrice : Option ℚ
  weighingFeeCost : Option ℚ
  weighingFeePrice : Option ℚ
  vgmFeeCost : Option ℚ
  vgmFeePrice : Option ℚ
  amendmentFeeCost : Option ℚ
  amendmentFeePrice : Option ℚ
  detentionFeeCost : Option ℚ
  detentionFeePrice : Option ℚ
  demurrageFeeCost : Option ℚ
  demurrageFeePrice : Option ℚ
  handlingFeeCost : Option ℚ
  handlingFeePrice : Option ℚ
  insuranceFeeCost : Option ℚ
  insuranceFeePrice : Option ℚ
  exchangeRate : Option ℚ
  isSpecialDeclaration : Bool
deriving DecidableEq

/-- The JavaScript read `x || 0` of a possibly-missing numeric field. -/
def orZero (x : Option ℚ) : ℚ := x.getD 0

/-- `record.exchangeRate || 7.2`: the default constant is substituted for a
missing or zero (falsy) exchange rate (`DEFAULT_EXCHANGE_RATE` in
`src/types/record.ts`). -/
def effRate (x : Option ℚ) : ℚ :=
  match x with
  | none => 7.2
  | some r => if r = 0 then 7.2 else r

/-- The fourteen additional cost/price fee pairs, in the order of the
`feeKeys` array shared by `ShipmentList.calculateTotalProfit` and
`ShipmentForm.estimatedProfit`. -/
def feePairs (s : ShipmentRecord) : List (Option ℚ × Option ℚ) :=
  [ (s.thcCost, s.thcPrice)
  , (s.printingFeeCost, s.printingFeePrice)
  , (s.sealFeeCost, s.sealFeePrice)
  , (s.docFeeCost, s.docFeePrice)
  , (s.telexFeeCost, s.telexFeePrice)
  , (s.blFeeCost, s.blFeePrice)
  , (s.diffPickupFeeCost, s.diffPickupFeePrice)
  , (s.weighingFeeCost, s.weighingFeePrice)
  , (s.vgmFeeCost, s.vgmFeePrice)
  , (s.amendmentFeeCost, s.amendmentFeePrice)
  , (s.detentionFeeCost, s.detentionFeePrice)
  , (s.demurrageFeeCost, s.demurrageFeePrice)
  , (s.handlingFeeCost, s.handlingFeePrice)
  , (s.insuranceFeeCost, s.insuranceFeePrice) ]

/-- `calculateTotalProfit` from `ShipmentList` (the seventeen-category
per-record net profit of spec section 4.2): ocean freight difference scaled
by the effective exchange rate, plus trucking and customs differences, plus
the fourteen additional fee differences accumulated over `feeKeys`. -/
def calculateTotalProfit (s : ShipmentRecord) : ℚ :=
  let rate := effRate s.exchangeRate
  let oceanProfit := (orZero s.oceanFreightPrice - orZero s.oceanFreightCost) * rate
  let truckingProfit := orZero s.truckingFeePrice - orZero s.truckingFeeCost
  let customsProfit := orZero s.customsFeePrice - orZero s.customsFeeCost
  let additionalProfit :=
    (feePairs s).foldl (fun acc p => acc + (orZero p.2 - orZero p.1)) 0
  oceanProfit + truckingProfit + customsProfit + additionalProfit

/-- `estimatedProfit` from `ShipmentForm`: the USD ocean difference is taken
first, then converted, then the same three local categories and the same
fourteen additional fee pairs are accumulated. -/
def estimatedProfit (s : ShipmentRecord) : ℚ :=
  let oceanProfitUSD := orZero s.oceanFreightPrice - orZero s.oceanFreightCost
  let oceanProfitCNY := oceanProfitUSD * effRate s.exchangeRate
  let truckingProfit := orZero s.truckingFeePrice - orZero s.truckingFeeCost
  let customsProfit := orZero s.customsFeePrice - orZero s.customsFeeCost
  let totalAdditionalProfit :=
    (feePairs s).foldl (fun acc p => acc + (orZero p.2 - orZero p.1)) 0
  oceanProfitCNY + truckingProfit + customsProfit + totalAdditionalProfit

/-- The inline three-category per-record profit repeated throughout
`StatsView` (annual totals, monthly stats, chart data): ocean freight scaled
by the rate, plus trucking and customs; the additional fee categories are
not read there. -/
def statsProfit (s : ShipmentRecord) : ℚ :=
  let rate := effRate s.exchangeRate
  let ocean := (orZero s.oceanFreightPrice - orZero s.oceanFreightCost) * rate
  let truck := orZero s.truckingFeePrice - orZero s.truckingFeeCost
  let customs := orZero s.customsFeePrice - orZero s.customsFeeCost
  ocean + truck + customs

/-- The rate-independent (local-currency) part of `calculateTotalProfit`:
trucking, customs and the fourteen additional categories. -/
def localFeeProfit (s : ShipmentRecord) : ℚ :=
  (orZero s.truckingFeePrice - orZero s.truckingFeeCost)
    + (orZero s.customsFeePrice - orZero s.customsFeeCost)
    + (feePairs s).foldl (fun acc p => acc + (orZero p.2 - orZero p.1)) 0

/-- Replace only the exchange rate of a record. -/
def withRate (s : ShipmentRecord) (r : Option ℚ) : ShipmentRecord :=
  { s with exchangeRate := r }

-- ---------------------------------------------------------------------------
-- Filter / search engine (`filteredShipments` in `ShipmentList`)
-- ---------------------------------------------------------------------------

/-- `String.prototype.toLowerCase`, character by character. -/
def strLower (s : String) : String := String.mk (s.data.map Char.toLower)

/-- `haystack.includes(needle)`: substring containment. -/
def strContains (hay needle : String) : Bool := decide (needle.data <:+: hay.data)

/-- The search predicate of `filteredShipments`: the lowercased query is
contained in one of the five lowercased identifier fields; the client field
is read through a truthiness guard (`item.client && ...`). -/
def matchesSearch (query : String) (s : ShipmentRecord) : Bool :=
  strContains (strLower s.bookingNo) (strLower query)
    || strContains (strLower s.businessNo) (strLower query)
    || strContains (strLower s.containerNo) (strLower query)
    || strContains (strLower s.shipper) (strLower query)
    || ((s.client != "") && strContains (strLower s.client) (strLower query))

/-- The complete per-record filter predicate: search AND container-type
AND client, with `"all"` as the pass-everything sentinel. -/
def keepRecord (query ftype fclient : String) (s : ShipmentRecord) : Bool :=
  matchesSearch query s
    && (ftype == "all" || s.containerType == ftype)
    && (fclient == "all" || s.client == fclient)

/-- `filteredShipments`: `shipments.filter(...)`. -/
def filteredShipments (query ftype fclient : String)
    (records : List ShipmentRecord) : List ShipmentRecord :=
  records.filter (keepRecord query ftype fclient)

/-- The filter predicate as the specification words it (no truthiness guard
on the client field, plain disjunction of substring matches). -/
def specKeep (query ftype fclient : String) (s : ShipmentRecord) : Prop :=
  (strContains (strLower s.bookingNo) (strLower query) = true
      ∨ strContains (strLower s.businessNo) (strLower query) = true
      ∨ strContains (strLower s.containerNo) (strLower query) = true
      ∨ strContains (strLower s.shipper) (strLower query) = true
      ∨ strContains (strLower s.client) (strLower query) = true)
    ∧ (ftype = "all" ∨ s.containerType = ftype)
    ∧ (fclient = "all" ∨ s.client = fclient)

-- ---------------------------------------------------------------------------
-- JavaScript Map grouping (insertion-ordered association lists)
-- ---------------------------------------------------------------------------

/-- `map.set(k, f(map.get(k) ?? v0))`: update the entry for `k` in place if
present, append a fresh entry otherwise (JS `Map` insertion order). -/
def upsert {K V : Type} [DecidableEq K] (k : K) (v0 : V) (f : V → V) :
    List (K × V) → List (K × V)
  | [] => [(k, f v0)]
  | p :: rest => if p.1 = k then (p.1, f p.2) :: rest else p :: upsert k v0 f rest

/-- Fold a collection into a JS-`Map`-style grouped association list. -/
def groupFold {α K V : Type} [DecidableEq K]
    (key : α → K) (v0 : V) (step : α → V → V) (l : List α) : List (K × V) :=
  l.foldl (fun acc a => upsert (key a) v0 (step a) acc) []

/-- `map.get(k)` on an association list. -/
def findVal {K V : Type} [DecidableEq K] (k : K) : List (K × V) → Option V
  | [] => none
  | p :: rest => if p.1 = k then some p.2 else findVal k rest

/-- Left-to-right accumulation of `step` over a list. -/
def accum {α V : Type} (step : α → V → V) (l : List α) (v : V) : V :=
  l.foldl (fun v a => step a v) v

-- ---------------------------------------------------------------------------
-- StatsView aggregations
-- ---------------------------------------------------------------------------

/-- The grouping anchor: `s.loadingDate ? parseISO(s.loadingDate)
: new Date(s.createdAt)`. -/
def anchorDate (s : ShipmentRecord) : JsDate := s.loadingDate.getD s.createdAt

/-- The `format(d, "yyyy-MM")` month key, as its calendar components. -/
def monthKey (s : ShipmentRecord) : Nat × Nat :=
  ((anchorDate s).year, (anchorDate s).month)

/-- Lexicographic order on month keys; `"yyyy-MM"` strings compare exactly
like this within the four-digit-year, zero-padded-month regime the code
lives in. -/
def mLe (a b : Nat × Nat) : Prop := a.1 < b.1 ∨ (a.1 = b.1 ∧ a.2 ≤ b.2)

instance : DecidableRel mLe := fun a b => by unfold mLe; infer_instance

instance : IsTotal (Nat × Nat) mLe := ⟨by intro a b; unfold mLe; omega⟩

instance : IsTrans (Nat × Nat) mLe := ⟨by intro a b c; unfold mLe; omega⟩

/-- The annual totals fold of `StatsView`: `currentVol += 1;
currentProfit += (ocean + truck + customs)`. -/
def annualTotals (records : List ShipmentRecord) : Nat × ℚ :=
  records.foldl (fun acc s => (acc.1 + 1, acc.2 + statsProfit s)) (0, 0)

/-- The `monthlyStats` map of `StatsView`: per month key, a volume and a
summed three-category profit. -/
def monthlyStats (records : List ShipmentRecord) : List ((Nat × Nat) × (ℚ × ℚ)) :=
  groupFold monthKey (0, 0) (fun s v => (v.1 + 1, v.2 + statsProfit s)) records

/-- The populated month keys, in first-occurrence order. -/
def monthsOf (records : List ShipmentRecord) : List (Nat × Nat) :=
  (monthlyStats records).map Prod.fst

/-- The growth formula applied to the reversed sorted month-key list: take
the latest and previous populated months, read their stats from the map
(`monthlyStats.get(...)!`), and apply the saturating
`prev === 0 ? 100 : (curr - prev) / prev * 100` convention; zero when fewer
than two months are populated. -/
def growthFromSorted (ms : List ((Nat × Nat) × (ℚ × ℚ))) :
    List (Nat × Nat) → ℚ × ℚ
  | latest :: prevMonth :: _ =>
    let curr := (findVal latest ms).getD (0, 0)
    let prev := (findVal prevMonth ms).getD (0, 0)
    ( if prev.1 = 0 then 100 else (curr.1 - prev.1) / prev.1 * 100
    , if prev.2 = 0 then 100 else (curr.2 - prev.2) / prev.2 * 100 )
  | _ => (0, 0)

/-- The month-over-month growth pair `(volGrowth, profitGrowth)` of
`StatsView`: sort the populated month keys ascending, take the last two,
and apply the saturating growth formula; zero when the collection is empty
or fewer than two months are populated. -/
def statsGrowth (records : List ShipmentRecord) : ℚ × ℚ :=
  match records with
  | [] => (0, 0)
  | _ :: _ =>
    growthFromSorted (monthlyStats records)
      (List.insertionSort mLe ((monthlyStats records).map Prod.fst)).reverse

/-- Specification-side monthly volume: the number of records of the year
anchored in month `k`. -/
def monthVol (records : List ShipmentRecord) (k : Nat × Nat) : Nat :=
  records.countP (fun s => decide (monthKey s = k))

/-- Specification-side monthly profit: the summed three-category profit of
the records of the year anchored in month `k`. -/
def monthProfit (records : List ShipmentRecord) (k : Nat × Nat) : ℚ :=
  ((records.filter (fun s => decide (monthKey s = k))).map statsProfit).sum

/-- The unsorted period buckets of the `chartData` memo, generic in the
grouping key (day / week / month key extraction): per key, a volume and a
summed three-category profit. -/
def chartBuckets {K : Type} [DecidableEq K] (key : ShipmentRecord → K)
    (records : List ShipmentRecord) : List (K × (ℚ × ℚ)) :=
  groupFold key (0, 0) (fun s v => (v.1 + 1, v.2 + statsProfit s)) records

/-- `chartData`: the buckets sorted ascending by their key (the source sorts
by the `dateStr` key string). -/
def chartData {K : Type} [DecidableEq K] (key : ShipmentRecord → K)
    (le : K → K → Prop) [DecidableRel le]
    (records : List ShipmentRecord) : List (K × (ℚ × ℚ)) :=
  List.insertionSort (fun a b => le a.1 b.1) (chartBuckets key records)

/-- The client grouping key of `topClients`: `s.client || "Unknown"`. -/
def clientKey (s : ShipmentRecord) : String :=
  if s.client = "" then "Unknown" else s.client

/-- The route grouping key of `topRoutes`. -/
def routeKey (s : ShipmentRecord) : String := s.pol ++ " → " ++ s.pod

/-- Descending-by-count comparison used by the top-N sorts
(`(a, b) => b[1] - a[1]`, applied by a stable sort). -/
def countGe (a b : String × Nat) : Prop := b.2 ≤ a.2

instance : DecidableRel countGe := fun a b => by unfold countGe; infer_instance

instance : IsTotal (String × Nat) countGe := ⟨by intro a b; unfold countGe; omega⟩

instance : IsTrans (String × Nat) countGe := ⟨by intro a b c; unfold countGe; omega⟩

/-- Shared shape of `topClients` and `topRoutes`: count per key in a JS map,
sort the entries descending by count (stable), keep the first five. -/
def topBy (key : ShipmentRecord → String) (records : List ShipmentRecord) :
    List (String × Nat) :=
  (List.insertionSort countGe (groupFold key 0 (fun _ n => n + 1) records)).take 5

/-- `topClients` of `StatsView`. -/
def topClients (records : List ShipmentRecord) : List (String × Nat) :=
  topBy clientKey records

/-- `topRoutes` of `StatsView`. -/
def topRoutes (records : List ShipmentRecord) : List (String × Nat) :=
  topBy routeKey records

-- ---------------------------------------------------------------------------
-- Shipment store (`use-shipments`): optimistic updates with rollback
-- ---------------------------------------------------------------------------

/-- The observable store state touched by the mutation paths. -/
structure StoreState where
  shipments : List ShipmentRecord
  loading : Bool
  error : Option String
deriving DecidableEq

/-- Outcome of the remote Supabase call. -/
inductive RemoteResult where
  | ok : RemoteResult
  | err : String → RemoteResult

/-- `addShipment`: optimistically prepend the provisional record; on a remote
error, filter it back out by its provisional id and surface the message.
(The success path triggers an external refetch, outside the store's own
state transition.) -/
def addShipmentRun (newRec : ShipmentRecord) (res : RemoteResult)
    (st : StoreState) : StoreState :=
  let st1 := { st with shipments := newRec :: st.shipments }
  match res with
  | .ok => st1
  | .err m =>
    { st1 with
      shipments := st1.shipments.filter (fun s => s.id != newRec.id)
      error := some m }

/-- `updateShipment`: optimistically map the merge over the matching id; on a
remote error, restore the snapshot taken before the call. -/
def updateShipmentRun (id : String) (upd : ShipmentRecord → ShipmentRecord)
    (res : RemoteResult) (st : StoreState) : StoreState :=
  let originalShipments := st.shipments
  let st1 :=
    { st with shipments := st.shipments.map (fun s => if s.id = id then upd s else s) }
  match res with
  | .ok => st1
  | .err m => { st1 with shipments := originalShipments, error := some m }

/-- `deleteShipment`: optimistically drop the id; on a remote error, restore
the snapshot. -/
def deleteShipmentRun (id : String) (res : RemoteResult)
    (st : StoreState) : StoreState :=
  let originalShipments := st.shipments
  let st1 := { st with shipments := st.shipments.filter (fun s => s.id != id) }
  match res with
  | .ok => st1
  | .err m => { st1 with shipments := originalShipments, error := some m }

/-- `deleteShipments`: optimistically drop every listed id; on a remote
error, restore the snapshot. -/
def deleteShipmentsRun (ids : List String) (res : RemoteResult)
    (st : StoreState) : StoreState :=
  let originalShipments := st.shipments
  let st1 := { st with shipments := st.shipments.filter (fun s => !ids.contains s.id) }
  match res with
  | .ok => st1
  | .err m => { st1 with shipments := originalShipments, error := some m }

-- ---------------------------------------------------------------------------
-- Sample records and scenario predicates
-- ---------------------------------------------------------------------------

/-- A fee field that the scenario leaves "0 or absent". -/
def zeroOrAbsent (x : Option ℚ) : Prop := x = some 0 ∨ x = none


/-- A sample record with every optional field absent and every string empty. -/
def recZero : ShipmentRecord where
  id := ""
  createdAt := ⟨2024, 1, 1⟩
  bookingNo := ""
  businessNo := ""
  shipper := ""
  client := ""
  fleet := ""
  loadingDate := none
  pol := ""
  pod := ""
  vesselName := ""
  containerType := ""
  containerNo := ""
  oceanFreightCost := none
  oceanFreightPrice := none
  truckingFeeCost := none
  truckingFeePrice := none
  customsFeeCost := none
  customsFeePrice := none
  thcCost := none
  thcPrice := none
  printingFeeCost := none
  printingFeePrice := none
  sealFeeCost := none
  sealFeePrice := none
  docFeeCost := none
  docFeePrice := none
  telexFeeCost := none
  telexFeePrice := none
  blFeeCost := none
  blFeePrice := none
  diffPickupFeeCost := none
  diffPickupFeePrice := none
  weighingFeeCost := none
  weighingFeePrice := none
  vgmFeeCost := none
  vgmFeePrice := none
  amendmentFeeCost := none
  amendmentFeePrice := none
  detentionFeeCost := none
  detentionFeePrice := none
  demurrageFeeCost := none
  demurrageFeePrice := none
  handlingFeeCost := none
  handlingFeePrice := none
  insuranceFeeCost := none
  insuranceFeePrice := none
  exchangeRate := none
  isSpecialDeclaration := false


/-- The concrete record of the end-to-end scenario. -/
def c2rec : ShipmentRecord :=
  { recZero with
    oceanFreightCost := some 1000
    oceanFreightPrice := some 1200
    exchangeRate := some 7
    truckingFeeCost := some 500
    truckingFeePrice := some 600
    customsFeeCost := some 200
    customsFeePrice := some 250 }


/-- Three records whose clients are Acme, Acme, Beta. -/
def recAcme : ShipmentRecord := { recZero with client := "Acme" }


def recBeta : ShipmentRecord := { recZero with client := "Beta" }


def recCX : ShipmentRecord := { recZero with client := "X" }


def recCY : ShipmentRecord := { recZero with client := "Y" }


/-- A record whose only nonzero fee is an additional-category price. -/
def cexThc : ShipmentRecord := { recZero with thcPrice := some 10 }


/-- A record with a fresh id, for the rollback witness. -/
def recA : ShipmentRecord := { recZero with id := "a" }


/-- Two one-record months for the growth witness. -/
def c4recs : List ShipmentRecord :=
  [ { recZero with loadingDate := some ⟨2024, 1, 5⟩ }
  , { recZero with loadingDate := some ⟨2024, 2, 5⟩ } ]


-- ---------------------------------------------------------------------------
-- Helper lemmas
-- ---------------------------------------------------------------------------

lemma orZero_eq_zero {x : Option ℚ} (h : zeroOrAbsent x) : orZero x = 0 := by
  rcases h with h | h <;> simp [orZero, h]

lemma feeFold_const (c : ℚ) :
    ∀ l : List (Option ℚ × Option ℚ),
      (∀ p ∈ l, zeroOrAbsent p.1 ∧ zeroOrAbsent p.2) →
      l.foldl (fun acc p => acc + (orZero p.2 - orZero p.1)) c = c
  | [], _ => rfl
  | p :: rest, h => by
    have hp := h p (List.mem_cons_self p rest)
    have hrest : ∀ q ∈ rest, zeroOrAbsent q.1 ∧ zeroOrAbsent q.2 :=
      fun q hq => h q (List.mem_cons_of_mem p hq)
    rw [List.foldl_cons, orZero_eq_zero hp.1, orZero_eq_zero hp.2]
    simpa using feeFold_const c rest hrest

-- ---------------------------------------------------------------------------
-- C9: the two inline profit formulas compute the same function
-- ---------------------------------------------------------------------------

lemma profitFormulas_agree (s : ShipmentRecord) :
    estimatedProfit s = calculateTotalProfit s := rfl

/-- C9: the form's estimated-profit computation and the list view's
`calculateTotalProfit` agree on every record: same ocean conversion, same
three mandatory categories, same fourteen additional fee pairs. -/
theorem estimatedProfit_eq_calculateTotalProfit (s : ShipmentRecord) :
    estimatedProfit s = calculateTotalProfit s := profitFormulas_agree s

-- ---------------------------------------------------------------------------
-- C2: end-to-end scenario, net profit 1550
-- ---------------------------------------------------------------------------

/-- C2: every record carrying the scenario's ocean (1000/1200 at rate 7),
trucking (500/600) and customs (200/250) figures, with all fourteen
additional fee pairs zero or absent, nets exactly 1550 under both inline
copies of the per-record profit computation. -/
theorem scenario_profit_1550 (s : ShipmentRecord)
    (hoc : s.oceanFreightCost = some 1000) (hop : s.oceanFreightPrice = some 1200)
    (hrate : s.exchangeRate = some 7)
    (htc : s.truckingFeeCost = some 500) (htp : s.truckingFeePrice = some 600)
    (hcc : s.customsFeeCost = some 200) (hcp : s.customsFeePrice = some 250)
    (hrest : ∀ p ∈ feePairs s, zeroOrAbsent p.1 ∧ zeroOrAbsent p.2) :
    calculateTotalProfit s = 1550 ∧ estimatedProfit s = 1550 := by
  have hfold := feeFold_const 0 (feePairs s) hrest
  have hmain : calculateTotalProfit s = 1550 := by
    simp only [calculateTotalProfit, hfold, hoc, hop, hrate, htc, htp, hcc, hcp]
    norm_num [orZero, effRate]
  exact ⟨hmain, by rw [profitFormulas_agree]; exact hmain⟩

/-- Witness: the scenario record evaluates to 1550. -/
theorem scenario_profit_1550_witness :
    calculateTotalProfit c2rec = 1550 ∧ estimatedProfit c2rec = 1550 :=
  scenario_profit_1550 c2rec rfl rfl rfl rfl rfl rfl rfl
    (by simp [feePairs, c2rec, recZero, zeroOrAbsent])

-- ---------------------------------------------------------------------------
-- C3: exchange-rate scaling applies to ocean freight only
-- ---------------------------------------------------------------------------

/-- C3: `calculateTotalProfit` splits into the ocean-freight difference
scaled by the effective exchange rate plus a rate-independent local part;
the effective rate is the record's rate when non-zero and the 7.2 default
when the rate is zero or missing; the local part never changes with the
rate. -/
theorem ocean_scaling (s : ShipmentRecord) :
    calculateTotalProfit s
        = (orZero s.oceanFreightPrice - orZero s.oceanFreightCost)
            * effRate s.exchangeRate + localFeeProfit s
      ∧ (s.exchangeRate = none ∨ s.exchangeRate = some 0 →
          effRate s.exchangeRate = 7.2)
      ∧ (∀ x : ℚ, s.exchangeRate = some x → x ≠ 0 → effRate s.exchangeRate = x)
      ∧ (∀ r : Option ℚ, localFeeProfit (withRate s r) = localFeeProfit s) := by
  refine ⟨?_, ?_, ?_, ?_⟩
  · simp only [calculateTotalProfit, localFeeProfit]
    ring
  · rintro (h | h) <;> simp [effRate, h]
  · intro x hx hne
    simp [effRate, hx, hne]
  · intro r
    rfl

/-- Witness for the ocean-scaling theorem at concrete records. -/
theorem ocean_scaling_witness :
    calculateTotalProfit recZero
        = (orZero recZero.oceanFreightPrice - orZero recZero.oceanFreightCost)
            * effRate recZero.exchangeRate + localFeeProfit recZero
      ∧ effRate recZero.exchangeRate = 7.2
      ∧ effRate (withRate recZero (some 3)).exchangeRate = 3
      ∧ localFeeProfit (withRate recZero (some 3)) = localFeeProfit recZero :=
  ⟨(ocean_scaling recZero).1,
   (ocean_scaling recZero).2.1 (Or.inl rfl),
   (ocean_scaling (withRate recZero (some 3))).2.2.1 3 rfl (by norm_num),
   (ocean_scaling recZero).2.2.2 (some 3)⟩

-- ---------------------------------------------------------------------------
-- C8: the empty collection yields neutral aggregates
-- ---------------------------------------------------------------------------

/-- C8: on the empty collection every aggregator output is neutral: zero
volume, zero profit, zero growth for both metrics, no period buckets, no
top clients, no top routes. -/
theorem empty_collection_neutral :
    annualTotals [] = (0, 0)
      ∧ statsGrowth [] = (0, 0)
      ∧ topClients [] = []
      ∧ topRoutes [] = []
      ∧ ∀ (K : Type) [DecidableEq K] (key : ShipmentRecord → K)
          (le : K → K → Prop) [DecidableRel le],
          chartData key le [] = [] := by
  refine ⟨rfl, rfl, rfl, rfl, ?_⟩
  intro K _ key le _
  rfl

-- ---------------------------------------------------------------------------
-- C5 / C6: the filter engine
-- ---------------------------------------------------------------------------

lemma strContains_empty_needle (hay q : String) (hq : q.data = []) :
    strContains hay q = true := by
  apply decide_eq_true
  rw [hq]
  exact List.nil_infix

lemma strContains_of_empty_hay {q : String} (h : strContains (strLower "") q = true)
    (hay : String) : strContains hay q = true := by
  have h1 : q.data <:+: (strLower "").data := of_decide_eq_true h
  have h0 : (strLower "").data = [] := rfl
  rw [h0, List.infix_nil] at h1
  exact strContains_empty_needle hay q h1

lemma keepRecord_iff (query ftype fclient : String) (s : ShipmentRecord) :
    keepRecord query ftype fclient s = true ↔ specKeep query ftype fclient s := by
  unfold keepRecord matchesSearch specKeep
  simp only [Bool.and_eq_true, Bool.or_eq_true, beq_iff_eq, bne_iff_ne]
  constructor
  · intro h
    tauto
  · intro h
    by_cases hc : s.client = ""
    · have himp : strContains (strLower s.client) (strLower query) = true →
          strContains (strLower s.bookingNo) (strLower query) = true := by
        intro he
        rw [hc] at he
        exact strContains_of_empty_hay he _
      tauto
    · tauto

/-- C5: a record passes `filteredShipments` exactly when it is in the input
and all three predicates hold: lowercased-substring search over booking,
business, container, shipper and client; container-type equality or the
"all" sentinel; client equality or the "all" sentinel. -/
theorem mem_filteredShipments_iff (query ftype fclient : String)
    (records : List ShipmentRecord) (s : ShipmentRecord) :
    s ∈ filteredShipments query ftype fclient records
      ↔ s ∈ records ∧ specKeep query ftype fclient s := by
  rw [filteredShipments, List.mem_filter, keepRecord_iff]

/-- C6: the filter output is an order-preserving subsequence of its input,
and the neutral parameters (empty search, "all" sentinels) return the input
unchanged. -/
theorem filteredShipments_sublist_and_neutral (query ftype fclient : String)
    (records : List ShipmentRecord) :
    (filteredShipments query ftype fclient records).Sublist records
      ∧ filteredShipments "" "all" "all" records = records := by
  constructor
  · exact List.filter_sublist records
  · apply List.filter_eq_self.mpr
    intro s _
    unfold keepRecord matchesSearch
    simp only [Bool.and_eq_true, Bool.or_eq_true, beq_iff_eq]
    have hb : strContains (strLower s.bookingNo) (strLower "") = true :=
      strContains_empty_needle (strLower s.bookingNo) (strLower "") rfl
    tauto

-- ---------------------------------------------------------------------------
-- Grouping machinery lemmas
-- ---------------------------------------------------------------------------

lemma findVal_upsert_eq {K V : Type} [DecidableEq K] (k : K) (v0 : V) (f : V → V) :
    ∀ acc : List (K × V),
      findVal k (upsert k v0 f acc) = some (f ((findVal k acc).getD v0))
  | [] => by simp [upsert, findVal]
  | p :: rest => by
    by_cases h : p.1 = k
    · simp [upsert, findVal, h]
    · simp only [upsert, findVal, if_neg h]
      exact findVal_upsert_eq k v0 f rest

lemma findVal_upsert_ne {K V : Type} [DecidableEq K] {k k' : K} (v0 : V) (f : V → V)
    (hne : k' ≠ k) :
    ∀ acc : List (K × V), findVal k (upsert k' v0 f acc) = findVal k acc
  | [] => by simp [upsert, findVal, hne]
  | p :: rest => by
    by_cases h : p.1 = k'
    · have : ¬ p.1 = k := by rw [h]; exact hne
      simp [upsert, findVal, h, this, hne]
    · simp only [upsert, findVal, if_neg h]
      by_cases h2 : p.1 = k
      · simp [h2]
      · simp only [if_neg h2]
        exact findVal_upsert_ne v0 f hne rest

lemma accum_cons {α V : Type} (step : α → V → V) (a : α) (l : List α) (v : V) :
    accum step (a :: l) v = accum step l (step a v) := rfl

lemma findVal_groupFold_aux {α K V : Type} [DecidableEq K]
    (key : α → K) (v0 : V) (step : α → V → V) :
    ∀ (l : List α) (acc : List (K × V)) (k : K),
      findVal k (l.foldl (fun acc a => upsert (key a) v0 (step a) acc) acc)
        = match findVal k acc, l.filter (fun a => decide (key a = k)) with
          | some v, f => some (accum step f v)
          | none, [] => none
          | none, f => some (accum step f v0)
  | [], acc, k => by
    cases h : findVal k acc <;> simp [accum, h]
  | a :: l, acc, k => by
    rw [List.foldl_cons]
    rw [findVal_groupFold_aux key v0 step l (upsert (key a) v0 (step a) acc) k]
    by_cases hk : key a = k
    · subst hk
      rw [findVal_upsert_eq]
      cases h : findVal (key a) acc
      · simp only [h, Option.getD_none, List.filter_cons]
        rw [if_pos (by simp)]
        cases hf : l.filter (fun x => decide (key x = key a)) <;>
          simp [accum_cons]
      · simp only [h, Option.getD_some, List.filter_cons]
        rw [if_pos (by simp)]
        cases hf : l.filter (fun x => decide (key x = key a)) <;>
          simp [accum_cons]
    · rw [findVal_upsert_ne v0 (step a) hk]
      have : (decide (key a = k)) = false := by simp [hk]
      cases h : findVal k acc <;> simp [h, List.filter_cons, this]

/-- A member of a grouped list carries exactly the fold over its fibre (and
its fibre is nonempty). -/
lemma findVal_groupFold {α K V : Type} [DecidableEq K]
    (key : α → K) (v0 : V) (step : α → V → V) (l : List α) (k : K) :
    findVal k (groupFold key v0 step l)
      = match l.filter (fun a => decide (key a = k)) with
        | [] => none
        | f => some (accum step f v0) := by
  have h := findVal_groupFold_aux key v0 step l [] k
  rw [groupFold]
  cases hfil : l.filter (fun a => decide (key a = k)) with
  | nil =>
    rw [hfil] at h
    simpa using h
  | cons b f =>
    rw [hfil] at h
    simpa using h

lemma keys_upsert {K V : Type} [DecidableEq K] (k : K) (v0 : V) (f : V → V) :
    ∀ acc : List (K × V),
      (upsert k v0 f acc).map Prod.fst
        = if k ∈ acc.map Prod.fst then acc.map Prod.fst
          else acc.map Prod.fst ++ [k]
  | [] => by simp [upsert]
  | p :: rest => by
    by_cases h : p.1 = k
    · simp [upsert, h]
    · have hne : ¬ k = p.1 := fun hh => h hh.symm
      simp only [upsert, if_neg h, List.map_cons, List.mem_cons, hne, false_or]
      rw [keys_upsert k v0 f rest]
      by_cases hm : k ∈ rest.map Prod.fst <;> simp [hm]

lemma nodup_keys_upsert {K V : Type} [DecidableEq K] (k : K) (v0 : V) (f : V → V)
    (acc : List (K × V)) (h : (acc.map Prod.fst).Nodup) :
    ((upsert k v0 f acc).map Prod.fst).Nodup := by
  rw [keys_upsert]
  by_cases hm : k ∈ acc.map Prod.fst
  · simpa [hm] using h
  · simp only [hm, if_false]
    exact List.Nodup.append h (List.nodup_singleton k) (by simpa using hm)

lemma nodup_keys_groupFold_aux {α K V : Type} [DecidableEq K]
    (key : α → K) (v0 : V) (step : α → V → V) :
    ∀ (l : List α) (acc : List (K × V)), (acc.map Prod.fst).Nodup →
      ((l.foldl (fun acc a => upsert (key a) v0 (step a) acc) acc).map Prod.fst).Nodup
  | [], _, h => h
  | a :: l, acc, h => by
    rw [List.foldl_cons]
    exact nodup_keys_groupFold_aux key v0 step l _ (nodup_keys_upsert (key a) v0 (step a) acc h)

/-- JS map keys are pairwise distinct. -/
lemma nodup_keys_groupFold {α K V : Type} [DecidableEq K]
    (key : α → K) (v0 : V) (step : α → V → V) (l : List α) :
    ((groupFold key v0 step l).map Prod.fst).Nodup :=
  nodup_keys_groupFold_aux key v0 step l [] (by simp)

lemma findVal_of_mem {K V : Type} [DecidableEq K] :
    ∀ {L : List (K × V)}, (L.map Prod.fst).Nodup → ∀ {k : K} {v : V},
      (k, v) ∈ L → findVal k L = some v
  | [], _, _, _, h => by cases h
  | p :: rest, hnd, k, v, h => by
    rcases List.mem_cons.mp h with h | h
    · rw [← h]
      simp [findVal]
    · have hk : p.1 ≠ k := by
        intro hkk
        have : k ∈ rest.map Prod.fst := List.mem_map_of_mem Prod.fst h
        rw [List.map_cons, List.nodup_cons] at hnd
        exact hnd.1 (hkk ▸ this)
      have hrest : (rest.map Prod.fst).Nodup := by
        rw [List.map_cons, List.nodup_cons] at hnd
        exact hnd.2
      simp only [findVal, if_neg hk]
      exact findVal_of_mem hrest h

/-- A member of a grouped list carries exactly the fold over its fibre. -/
lemma mem_groupFold_val {α K V : Type} [DecidableEq K]
    (key : α → K) (v0 : V) (step : α → V → V) (l : List α)
    {k : K} {v : V} (h : (k, v) ∈ groupFold key v0 step l) :
    v = accum step (l.filter (fun a => decide (key a = k))) v0 := by
  have hf := findVal_of_mem (nodup_keys_groupFold key v0 step l) h
  rw [findVal_groupFold] at hf
  cases hfil : l.filter (fun a => decide (key a = k)) with
  | nil =>
    rw [hfil] at hf
    cases hf
  | cons b f =>
    rw [hfil] at hf
    have hf2 : some (accum step (b :: f) v0) = some v := hf
    exact (Option.some.inj hf2).symm

-- ---------------------------------------------------------------------------
-- C7: top clients and top routes
-- ---------------------------------------------------------------------------

lemma accum_count {α : Type} :
    ∀ (l : List α) (c : Nat), accum (fun (_ : α) (n : Nat) => n + 1) l c = c + l.length
  | [], c => rfl
  | _ :: l, c => by
    rw [accum_cons, accum_count l (c + 1)]
    simp [List.length_cons]
    omega

lemma mem_topBy_count (key : ShipmentRecord → String)
    (records : List ShipmentRecord) (p : String × Nat)
    (h : p ∈ topBy key records) :
    p.2 = records.countP (fun s => decide (key s = p.1)) := by
  have h1 : p ∈ List.insertionSort countGe (groupFold key 0 (fun _ n => n + 1) records) :=
    List.mem_of_mem_take h
  have h2 : p ∈ groupFold key 0 (fun _ n => n + 1) records :=
    (List.mem_insertionSort countGe).mp h1
  have h3 : (p.1, p.2) ∈ groupFold key 0 (fun _ n => n + 1) records := by
    simpa using h2
  have h4 := mem_groupFold_val key 0 (fun _ n => n + 1) records h3
  rw [h4, accum_count, List.countP_eq_length_filter]
  simp

lemma pairwise_topBy (key : ShipmentRecord → String) (records : List ShipmentRecord) :
    (topBy key records).Pairwise countGe := by
  have hs : (List.insertionSort countGe
      (groupFold key 0 (fun _ n => n + 1) records)).Sorted countGe :=
    List.sorted_insertionSort countGe _
  exact List.Pairwise.sublist (List.take_sublist 5 _) hs

/-- C7: the top-clients and top-routes groupings count records per
(placeholder-substituted) client name, resp. per origin–destination route
string, are sorted descending by count, are truncated to at most five
entries, and ties keep first-encountered order; on clients
Acme, Acme, Beta the result is Acme:2, Beta:1. -/
theorem topN_groupings :
    (∀ (records : List ShipmentRecord) (p : String × Nat), p ∈ topClients records →
        p.2 = records.countP (fun s => decide (clientKey s = p.1)))
      ∧ (∀ records : List ShipmentRecord, (topClients records).Pairwise countGe)
      ∧ (∀ records : List ShipmentRecord, (topClients records).length ≤ 5)
      ∧ (∀ (records : List ShipmentRecord) (p : String × Nat), p ∈ topRoutes records →
          p.2 = records.countP (fun s => decide (routeKey s = p.1)))
      ∧ (∀ records : List ShipmentRecord, (topRoutes records).Pairwise countGe)
      ∧ (∀ records : List ShipmentRecord, (topRoutes records).length ≤ 5)
      ∧ topClients [recAcme, recAcme, recBeta] = [("Acme", 2), ("Beta", 1)]
      ∧ topClients [recCX, recCY] = [("X", 1), ("Y", 1)] := by
  refine ⟨fun records p h => mem_topBy_count clientKey records p h,
    fun records => pairwise_topBy clientKey records,
    fun records => List.length_take_le 5 _,
    fun records p h => mem_topBy_count routeKey records p h,
    fun records => pairwise_topBy routeKey records,
    fun records => List.length_take_le 5 _,
    by decide, by decide⟩

/-- Witness: the counting clauses applied at the concrete Acme/Beta input. -/
theorem topN_groupings_witness :
    ("Acme", 2).2
        = [recAcme, recAcme, recBeta].countP (fun s => decide (clientKey s = ("Acme", 2).1))
      ∧ (" → ", 2).2
        = [recAcme, recAcme].countP (fun s => decide (routeKey s = (" → ", 2).1)) :=
  ⟨topN_groupings.1 [recAcme, recAcme, recBeta] ("Acme", 2) (by decide),
   topN_groupings.2.2.2.1 [recAcme, recAcme] (" → ", 2) (by decide)⟩

-- ---------------------------------------------------------------------------
-- C1: annual totals and period buckets sum the three-category profit
-- ---------------------------------------------------------------------------

lemma accum_stats :
    ∀ (l : List ShipmentRecord) (a b : ℚ),
      accum (fun s (v : ℚ × ℚ) => (v.1 + 1, v.2 + statsProfit s)) l (a, b)
        = (a + l.length, b + (l.map statsProfit).sum)
  | [], a, b => by simp [accum]
  | s :: l, a, b => by
    rw [accum_cons, accum_stats l (a + 1) (b + statsProfit s)]
    simp only [Prod.mk.injEq, List.length_cons, List.map_cons, List.sum_cons]
    refine ⟨?_, by ring⟩
    push_cast
    ring

lemma annualTotals_aux :
    ∀ (l : List ShipmentRecord) (a : Nat) (b : ℚ),
      l.foldl (fun acc s => (acc.1 + 1, acc.2 + statsProfit s)) (a, b)
        = (a + l.length, b + (l.map statsProfit).sum)
  | [], a, b => by simp
  | s :: l, a, b => by
    rw [List.foldl_cons, annualTotals_aux l (a + 1) (b + statsProfit s)]
    simp only [Prod.mk.injEq, List.length_cons, List.map_cons, List.sum_cons]
    exact ⟨by omega, by ring⟩

/-- C1 counterexample: on a record whose only nonzero figure is an
additional-category fee (thcPrice = 10), the StatsView annual profit total
(0) differs from the sum of the seventeen-category per-record net profit of
spec section 4.2 (10): the statistics view ignores the fourteen additional
fee categories. -/
theorem statsAnnual_ne_seventeenCategory :
    (annualTotals [cexThc]).2 ≠ ([cexThc].map calculateTotalProfit).sum := by
  have h1 : (annualTotals [cexThc]).2 = 0 := by
    simp [annualTotals, statsProfit, cexThc, recZero, orZero, effRate]
  have h2 : ([cexThc].map calculateTotalProfit).sum = 10 := by
    simp [calculateTotalProfit, feePairs, cexThc, recZero, orZero, effRate]
  rw [h1, h2]
  norm_num

/-- C1 (amended): the annual totals and every period bucket of the
statistics view accumulate the THREE-category per-record profit
(ocean scaled by the rate, trucking, customs — `statsProfit`), not the
seventeen-category net profit: annual volume is the record count, annual
profit is the sum of `statsProfit`, and each chart bucket holds the count
and the `statsProfit` sum of exactly the records mapping to its key. -/
theorem stats_aggregation_threeCategory :
    (∀ records : List ShipmentRecord,
        annualTotals records = (records.length, (records.map statsProfit).sum))
      ∧ ∀ (K : Type) [DecidableEq K] (key : ShipmentRecord → K)
          (le : K → K → Prop) [DecidableRel le]
          (records : List ShipmentRecord) (b : K × (ℚ × ℚ)),
          b ∈ chartData key le records →
            b.2.1 = ((records.filter (fun s => decide (key s = b.1))).length : ℚ)
              ∧ b.2.2 = ((records.filter (fun s => decide (key s = b.1))).map
                  statsProfit).sum := by
  constructor
  · intro records
    rw [annualTotals, annualTotals_aux records 0 0]
    simp
  · intro K _ key le _ records b hb
    have h1 : b ∈ chartBuckets key records :=
      (List.mem_insertionSort _).mp hb
    have h2 : (b.1, b.2) ∈ groupFold key (0, 0)
        (fun s v => (v.1 + 1, v.2 + statsProfit s)) records := by
      simpa [chartBuckets] using h1
    have h3 := mem_groupFold_val key (0, 0)
      (fun s v => (v.1 + 1, v.2 + statsProfit s)) records h2
    rw [accum_stats] at h3
    constructor
    · rw [show b.2.1 = ((0 : ℚ) + (records.filter
        (fun s => decide (key s = b.1))).length) from congrArg Prod.fst h3]
      ring
    · rw [show b.2.2 = ((0 : ℚ) + ((records.filter
        (fun s => decide (key s = b.1))).map statsProfit).sum) from congrArg Prod.snd h3]
      ring


/-- Witness: the bucket clause applied at a one-record January collection. -/
theorem stats_aggregation_threeCategory_witness :
    annualTotals [recAcme] = ([recAcme].length, ([recAcme].map statsProfit).sum)
      ∧ ((1 : ℚ)
            = (([recAcme].filter (fun s => decide (monthKey s = (2024, 1)))).length : ℚ)
          ∧ (0 : ℚ)
            = (([recAcme].filter (fun s => decide (monthKey s = (2024, 1)))).map
                statsProfit).sum) :=
  ⟨stats_aggregation_threeCategory.1 [recAcme],
   stats_aggregation_threeCategory.2 (Nat × Nat) monthKey mLe [recAcme]
     ((2024, 1), (1, 0))
     (by
        have h : chartData monthKey mLe [recAcme]
            = [((2024, 1), ((0 : ℚ) + 1, (0 : ℚ) + statsProfit recAcme))] := rfl
        rw [h]
        have h2 : statsProfit recAcme = 0 := by
          simp [statsProfit, recAcme, recZero, orZero, effRate]
        simp [h2])⟩

-- ---------------------------------------------------------------------------
-- C10: optimistic mutations roll back exactly on remote error
-- ---------------------------------------------------------------------------

/-- C10: when the remote call fails, every mutation path leaves the store
exactly as it was except for the error message: update/delete/deleteMany
restore the pre-call snapshot, and add removes the provisional record it
prepended (provided its provisional id was not already present). -/
theorem store_rollback (st : StoreState) (m : String) :
    (∀ newRec : ShipmentRecord,
        newRec.id ∉ st.shipments.map ShipmentRecord.id →
        addShipmentRun newRec (RemoteResult.err m) st = { st with error := some m })
      ∧ (∀ (id : String) (upd : ShipmentRecord → ShipmentRecord),
          updateShipmentRun id upd (RemoteResult.err m) st = { st with error := some m })
      ∧ (∀ id : String,
          deleteShipmentRun id (RemoteResult.err m) st = { st with error := some m })
      ∧ (∀ ids : List String,
          deleteShipmentsRun ids (RemoteResult.err m) st = { st with error := some m }) := by
  refine ⟨?_, fun id upd => rfl, fun id => rfl, fun ids => rfl⟩
  intro newRec hfresh
  have hfil : List.filter (fun s => s.id != newRec.id) (newRec :: st.shipments)
      = st.shipments := by
    rw [List.filter_cons]
    simp only [bne_self_eq_false, Bool.false_eq_true, if_false]
    apply List.filter_eq_self.mpr
    intro s hs
    simp only [bne_iff_ne, ne_eq]
    intro hcontra
    exact hfresh (hcontra ▸ List.mem_map_of_mem ShipmentRecord.id hs)
  show { st with
      shipments := List.filter (fun s => s.id != newRec.id) (newRec :: st.shipments),
      error := some m } = { st with error := some m }
  rw [hfil]

/-- Witness: a failing add on a one-record store rolls back to it. -/
theorem store_rollback_witness :
    addShipmentRun recA (RemoteResult.err "boom")
        { shipments := [recZero], loading := false, error := none }
      = { shipments := [recZero], loading := false, error := some "boom" } :=
  (store_rollback { shipments := [recZero], loading := false, error := none } "boom").1
    recA (by decide)

-- ---------------------------------------------------------------------------
-- C4: month-over-month growth
-- ---------------------------------------------------------------------------

lemma mLe_refl (a : Nat × Nat) : mLe a a := Or.inr ⟨rfl, le_refl a.2⟩

lemma sorted_last_two {l : List (Nat × Nat)} (hs : l.Sorted mLe)
    {c p : Nat × Nat} {rest : List (Nat × Nat)} (hrev : l.reverse = c :: p :: rest) :
    mLe p c ∧ (∀ k ∈ l, mLe k c) ∧ (∀ k ∈ l, k ≠ c → mLe k p) := by
  have hl : l = rest.reverse ++ [p, c] := by
    rw [← List.reverse_reverse l, hrev]
    simp
  subst hl
  rcases List.pairwise_append.mp hs with ⟨_, h2, hcross⟩
  have hpc : mLe p c := by
    rcases List.pairwise_cons.mp h2 with ⟨hp, _⟩
    exact hp c (List.mem_cons_self c [])
  refine ⟨hpc, ?_, ?_⟩
  · intro k hk
    rcases List.mem_append.mp hk with hk | hk
    · exact hcross k hk c (by simp)
    · simp only [List.mem_cons, List.not_mem_nil, or_false] at hk
      rcases hk with rfl | rfl
      · exact hpc
      · exact mLe_refl k
  · intro k hk hkc
    rcases List.mem_append.mp hk with hk | hk
    · exact hcross k hk p (by simp)
    · simp only [List.mem_cons, List.not_mem_nil, or_false] at hk
      rcases hk with rfl | rfl
      · exact mLe_refl k
      · exact absurd rfl hkc

lemma monthlyStats_val {records : List ShipmentRecord} {k : Nat × Nat}
    (hk : k ∈ monthsOf records) :
    findVal k (monthlyStats records)
      = some (((monthVol records k : ℚ)), monthProfit records k) := by
  obtain ⟨pr, hpr, hfst⟩ := List.mem_map.mp hk
  have hmem : (k, pr.2) ∈ monthlyStats records := by
    rw [← hfst]
    simpa using hpr
  have hnd : ((monthlyStats records).map Prod.fst).Nodup :=
    nodup_keys_groupFold monthKey (0, 0) (fun s v => (v.1 + 1, v.2 + statsProfit s)) records
  have hfind := findVal_of_mem hnd hmem
  have hval := mem_groupFold_val monthKey ((0 : ℚ), (0 : ℚ))
      (fun s v => (v.1 + 1, v.2 + statsProfit s)) records hmem
  rw [accum_stats] at hval
  rw [hfind, hval]
  simp [monthVol, monthProfit, List.countP_eq_length_filter]

/-- C4: for a nonempty year collection, the growth pair is zero when at most
one month is populated; otherwise there are a latest and a previous
populated month (the two maximal month keys, independent of the display
granularity) and the growth pair applies `(curr - prev) / prev * 100` to
their volumes and profits, saturating to 100 when the previous value is
exactly zero. -/
theorem monthGrowth_spec (records : List ShipmentRecord) (hne : records ≠ []) :
    ((monthsOf records).length ≤ 1 → statsGrowth records = (0, 0))
      ∧ (2 ≤ (monthsOf records).length →
          ∃ curr prev : Nat × Nat,
            curr ∈ monthsOf records ∧ prev ∈ monthsOf records ∧ prev ≠ curr
              ∧ mLe prev curr
              ∧ (∀ k ∈ monthsOf records, mLe k curr)
              ∧ (∀ k ∈ monthsOf records, k ≠ curr → mLe k prev)
              ∧ statsGrowth records
                  = ( if (monthVol records prev : ℚ) = 0 then 100
                      else ((monthVol records curr : ℚ) - (monthVol records prev : ℚ))
                            / (monthVol records prev : ℚ) * 100
                    , if monthProfit records prev = 0 then 100
                      else (monthProfit records curr - monthProfit records prev)
                            / monthProfit records prev * 100 )) := by
  obtain ⟨a, t, rfl⟩ : ∃ a t, records = a :: t := by
    cases records with
    | nil => exact absurd rfl hne
    | cons a t => exact ⟨a, t, rfl⟩
  have hgrow : statsGrowth (a :: t)
      = growthFromSorted (monthlyStats (a :: t))
          (List.insertionSort mLe ((monthlyStats (a :: t)).map Prod.fst)).reverse := rfl
  have hperm := List.perm_insertionSort mLe ((monthlyStats (a :: t)).map Prod.fst)
  have hlen : (List.insertionSort mLe ((monthlyStats (a :: t)).map Prod.fst)).length
      = (monthsOf (a :: t)).length := hperm.length_eq
  constructor
  · intro hle
    rw [hgrow]
    cases hr : (List.insertionSort mLe ((monthlyStats (a :: t)).map Prod.fst)).reverse with
    | nil => rfl
    | cons c rest =>
      cases rest with
      | nil => rfl
      | cons p rest2 =>
        exfalso
        have hh := congrArg List.length hr
        rw [List.length_reverse, hlen] at hh
        simp only [List.length_cons] at hh
        omega
  · intro hge
    cases hr : (List.insertionSort mLe ((monthlyStats (a :: t)).map Prod.fst)).reverse with
    | nil =>
      exfalso
      have hh := congrArg List.length hr
      rw [List.length_reverse, hlen] at hh
      simp only [List.length_nil] at hh
      omega
    | cons c rest =>
      cases rest with
      | nil =>
        exfalso
        have hh := congrArg List.length hr
        rw [List.length_reverse, hlen] at hh
        simp only [List.length_cons, List.length_nil] at hh
        omega
      | cons p rest2 =>
        have hsorted : (List.insertionSort mLe
            ((monthlyStats (a :: t)).map Prod.fst)).Sorted mLe :=
          List.sorted_insertionSort mLe _
        obtain ⟨hpc, hmax, hsecond⟩ := sorted_last_two hsorted hr
        have hmemsort : ∀ k : Nat × Nat,
            k ∈ List.insertionSort mLe ((monthlyStats (a :: t)).map Prod.fst)
              ↔ k ∈ monthsOf (a :: t) := fun k => hperm.mem_iff
        have hcs : c ∈ monthsOf (a :: t) := by
          have hmm : c ∈ (List.insertionSort mLe
              ((monthlyStats (a :: t)).map Prod.fst)).reverse := by
            rw [hr]
            exact List.mem_cons_self c _
          exact (hmemsort c).mp (List.mem_reverse.mp hmm)
        have hps : p ∈ monthsOf (a :: t) := by
          have hmm : p ∈ (List.insertionSort mLe
              ((monthlyStats (a :: t)).map Prod.fst)).reverse := by
            rw [hr]
            exact List.mem_cons_of_mem c (List.mem_cons_self p _)
          exact (hmemsort p).mp (List.mem_reverse.mp hmm)
        have hnd : (monthsOf (a :: t)).Nodup :=
          nodup_keys_groupFold monthKey (0, 0)
            (fun s v => (v.1 + 1, v.2 + statsProfit s)) (a :: t)
        have hndrev : ((List.insertionSort mLe
            ((monthlyStats (a :: t)).map Prod.fst)).reverse).Nodup :=
          List.nodup_reverse.mpr (hperm.nodup_iff.mpr hnd)
        have hne2 : p ≠ c := by
          rw [hr, List.nodup_cons] at hndrev
          intro hpc2
          exact hndrev.1 (hpc2 ▸ List.mem_cons_self p rest2)
        refine ⟨c, p, hcs, hps, hne2, hpc, ?_, ?_, ?_⟩
        · intro k hk
          exact hmax k ((hmemsort k).mpr hk)
        · intro k hk hkc
          exact hsecond k ((hmemsort k).mpr hk) hkc
        · rw [hgrow, hr]
          simp only [growthFromSorted, monthlyStats_val hcs, monthlyStats_val hps,
            Option.getD_some]

/-- Witness: the growth characterization applied to a two-month collection. -/
theorem monthGrowth_spec_witness :
    ∃ curr prev : Nat × Nat,
      curr ∈ monthsOf c4recs ∧ prev ∈ monthsOf c4recs ∧ prev ≠ curr
        ∧ mLe prev curr
        ∧ (∀ k ∈ monthsOf c4recs, mLe k curr)
        ∧ (∀ k ∈ monthsOf c4recs, k ≠ curr → mLe k prev)
        ∧ statsGrowth c4recs
            = ( if (monthVol c4recs prev : ℚ) = 0 then 100
                else ((monthVol c4recs curr : ℚ) - (monthVol c4recs prev : ℚ))
                      / (monthVol c4recs prev : ℚ) * 100
              , if monthProfit c4recs prev = 0 then 100
                else (monthProfit c4recs curr - monthProfit c4recs prev)
                      / monthProfit c4recs prev * 100 ) :=
  (monthGrowth_spec c4recs (by simp [c4recs])).2 (by decide)
